import Mathlib

/-!
Formal model of `rust/definitions/src/helpers.rs` from the parity-signer repository.

Shallow embedding conventions:
* `u8` is `Fin 256` (`Byte`), `Vec<u8>` / `&[u8]` is `List Byte` (`Bytes`);
* Rust `String` / `&str` values are `List Char`;
* fallible functions return `Except Error _`, a Rust panic is `Option.none`;
* machine words inside the hash permutations are `Nat` reduced mod `2 ^ 64`;
* the external crates used by helpers.rs (`hex`, `sp_core`, `sp_runtime`,
  `libsecp256k1`, `plot_icon`, `eth_blockies`) are modelled by executable Lean
  definitions that follow those crates' documented algorithms.
-/

/-- A byte (`u8`). -/
abbrev Byte := Fin 256

/-- A byte string (`Vec<u8>` or a byte slice). -/
abbrev Bytes := List Byte

/-- Truncate a natural number to a byte. -/
def natToByte (n : Nat) : Byte := ⟨n % 256, Nat.mod_lt _ (by norm_num)⟩

/-- Big-endian interpretation of a byte string as a natural number. -/
def bytesToNatBE (l : Bytes) : Nat := l.foldl (fun acc b => acc * 256 + b.val) 0

/-- Big-endian encoding of `n` into exactly `len` bytes, most significant first. -/
def natToBytesBE (len n : Nat) : Bytes :=
  (List.range len).map (fun i => natToByte (n / 256 ^ (len - 1 - i)))

/-- The last `n` elements of a list (`[len - n ..]` slice). -/
def lastBytes (n : Nat) (l : Bytes) : Bytes := l.drop (l.length - n)

/-- Scheme tag `Encryption` from `crate::crypto`.  The declaring module is outside
the sources; the variant set is fixed by the exhaustive `match` in `get_multisigner`
(`Ed25519`, `Sr25519`, `Ecdsa`, `Ethereum`), matching spec §3. -/
inductive Encryption
  | Ed25519
  | Sr25519
  | Ecdsa
  | Ethereum
deriving DecidableEq

/-- `ed25519::Public` and `sr25519::Public` of `sp_core`: exactly 32 raw bytes. -/
abbrev PubKey32 := {l : Bytes // l.length = 32}

/-- `ecdsa::Public` of `sp_core`: exactly 33 raw bytes (a compressed point encoding,
not validated at construction — `from_raw` wraps any 33 bytes). -/
abbrev PubKey33 := {l : Bytes // l.length = 33}

/-- `sp_runtime::MultiSigner`: the three public key variants matched in helpers.rs. -/
inductive MultiSigner
  | Ed25519 (a : PubKey32)
  | Sr25519 (a : PubKey32)
  | Ecdsa (a : PubKey33)
deriving DecidableEq

/-- Error type of the `hex` crate's `hex::decode`: first invalid character (with its
index), or odd input length. -/
inductive FromHexError
  | invalidHexCharacter (c : Char) (index : Nat)
  | oddLength
deriving DecidableEq

/-- Modelled from the spec: `crate::error::Error` (its declaring module
`definitions/src/error.rs` is outside the sources).  Variants follow spec §7 for the
operations embedded here.  `wrongPublicKeyLength` carries no payload: helpers.rs
builds it as the plain value `Error::WrongPublicKeyLength` inside
`map_err(|_| ...)`, which type-checks only for a fieldless variant. -/
inductive Error
  | wrongPublicKeyLength
  | hexError (e : FromHexError)
  | pointDecompressionFailed
deriving DecidableEq

/-- Value of a hexadecimal digit character, as recognised by `hex::decode`. -/
def hexVal (c : Char) : Option Nat :=
  if '0' ≤ c ∧ c ≤ '9' then some (c.toNat - 48)
  else if 'a' ≤ c ∧ c ≤ 'f' then some (c.toNat - 87)
  else if 'A' ≤ c ∧ c ≤ 'F' then some (c.toNat - 55)
  else none

/-- Is `c` a hexadecimal digit? -/
def isHexDigit (c : Char) : Bool := (hexVal c).isSome

/-- Pair loop of `hex::decode`: two characters per output byte, reporting the first
invalid character together with its index.  The one-character case is unreachable
from `hexDecode` (length parity is checked first) but kept total. -/
def decodeHexPairs : List Char → Nat → Except FromHexError Bytes
  | [], _ => .ok []
  | [c], i =>
      match hexVal c with
      | none => .error (.invalidHexCharacter c i)
      | some _ => .ok []
  | c1 :: c2 :: rest, i =>
      match hexVal c1 with
      | none => .error (.invalidHexCharacter c1 i)
      | some hi =>
          match hexVal c2 with
          | none => .error (.invalidHexCharacter c2 (i + 1))
          | some lo => (decodeHexPairs rest (i + 2)).map (fun bs => natToByte (hi * 16 + lo) :: bs)

/-- `hex::decode`: fails on odd length, else decodes character pairs. -/
def hexDecode (s : List Char) : Except FromHexError Bytes :=
  if s.length % 2 = 1 then .error .oddLength else decodeHexPairs s 0

/-- `unhex` from helpers.rs: strip one leading `0x` if present, then `hex::decode`,
converting the hex error into the crate error. -/
def unhex (hexEntry : List Char) : Except Error Bytes :=
  let stripped := if hexEntry.take 2 = ['0', 'x'] then hexEntry.drop 2 else hexEntry
  match hexDecode stripped with
  | .ok v => .ok v
  | .error e => .error (.hexError e)

/-- `multisigner_to_public` from helpers.rs: the raw public key bytes. -/
def multisigner_to_public (m : MultiSigner) : Bytes :=
  match m with
  | .Ed25519 a => a.val
  | .Sr25519 a => a.val
  | .Ecdsa a => a.val

/-- `multisigner_to_encryption` from helpers.rs. -/
def multisigner_to_encryption (m : MultiSigner) : Encryption :=
  match m with
  | .Ed25519 _ => .Ed25519
  | .Sr25519 _ => .Sr25519
  | .Ecdsa _ => .Ecdsa

/-- `get_multisigner` from helpers.rs: `Vec<u8> -> [u8; N]` conversion (`try_into`)
succeeds exactly on the matching length; `Ecdsa` and `Ethereum` share one arm in the
source and both build `MultiSigner::Ecdsa`. -/
def get_multisigner (public : Bytes) (encryption : Encryption) : Except Error MultiSigner :=
  match encryption with
  | .Ed25519 =>
      if h : public.length = 32 then .ok (.Ed25519 ⟨public, h⟩)
      else .error .wrongPublicKeyLength
  | .Sr25519 =>
      if h : public.length = 32 then .ok (.Sr25519 ⟨public, h⟩)
      else .error .wrongPublicKeyLength
  | .Ecdsa =>
      if h : public.length = 33 then .ok (.Ecdsa ⟨public, h⟩)
      else .error .wrongPublicKeyLength
  | .Ethereum =>
      if h : public.length = 33 then .ok (.Ecdsa ⟨public, h⟩)
      else .error .wrongPublicKeyLength

/-- The exact public key byte length `get_multisigner` demands per scheme. -/
def expectedKeyLength (e : Encryption) : Nat :=
  match e with
  | .Ed25519 => 32
  | .Sr25519 => 32
  | .Ecdsa => 33
  | .Ethereum => 33

/-- Decidable equality for `Except` results. -/
instance {ε α : Type} [DecidableEq ε] [DecidableEq α] : DecidableEq (Except ε α)
  | .ok a, .ok b =>
      if h : a = b then .isTrue (by rw [h])
      else .isFalse (fun hh => h (Except.ok.inj hh))
  | .ok _, .error _ => .isFalse (fun hh => Except.noConfusion hh)
  | .error _, .ok _ => .isFalse (fun hh => Except.noConfusion hh)
  | .error a, .error b =>
      if h : a = b then .isTrue (by rw [h])
      else .isFalse (fun hh => h (Except.error.inj hh))

/-- A 32-byte all-zero public key. -/
def zero32 : PubKey32 := ⟨List.map natToByte (List.replicate 32 0), by simp⟩

/-- A 33-byte all-zero public key (not a valid compressed point: its tag byte is 0). -/
def zero33 : PubKey33 := ⟨List.map natToByte (List.replicate 33 0), by simp⟩

/-- Reduction of a machine word to 64 bits. -/
def mask64 (x : Nat) : Nat := x % 2 ^ 64

/-- Left-rotation of a 64-bit word by `n` (with `n ≤ 63`). -/
def rotl64 (x n : Nat) : Nat := mask64 (x <<< n) ||| (x >>> (64 - n))

/-- Little-endian interpretation of up to eight bytes as a 64-bit lane. -/
def bytesToLaneLE (l : List Nat) : Nat := l.foldr (fun b acc => acc * 256 + b) 0

/-- Keccak-f[1600] round constants (iota), written in decimal. -/
def keccakRC : List Nat :=
  [1, 32898, 9223372036854808714, 9223372039002292224,
   32907, 2147483649, 9223372039002292353, 9223372036854808585,
   138, 136, 2147516425, 2147483658,
   2147516555, 9223372036854775947, 9223372036854808713, 9223372036854808579,
   9223372036854808578, 9223372036854775936, 32778, 9223372039002259466,
   9223372039002292353, 9223372036854808704, 2147483649, 9223372039002292232]

/-- Keccak rho rotation offsets: `keccakRhoTable` holds, for each column `x`, the
offsets for `y = 0, ..., 4`. -/
def keccakRhoTable : List (List Nat) :=
  [[0, 36, 3, 41, 18],
   [1, 44, 10, 45, 2],
   [62, 6, 43, 15, 61],
   [28, 55, 25, 21, 56],
   [27, 20, 39, 8, 14]]

/-- The rho rotation offset of lane `(x, y)`. -/
def keccakRho (x y : Nat) : Nat := (keccakRhoTable.getD x []).getD y 0

/-- One Keccak-f[1600] round: theta, rho, pi, chi, iota. -/
def keccakRound (st : List Nat) (rc : Nat) : List Nat :=
  let c := (List.range 5).map fun x =>
    st.getD x 0 ^^^ st.getD (x + 5) 0 ^^^ st.getD (x + 10) 0 ^^^
      st.getD (x + 15) 0 ^^^ st.getD (x + 20) 0
  let d := (List.range 5).map fun x =>
    c.getD ((x + 4) % 5) 0 ^^^ rotl64 (c.getD ((x + 1) % 5) 0) 1
  let s1 := (List.range 25).map fun i => st.getD i 0 ^^^ d.getD (i % 5) 0
  let b := (List.range 25).foldl (fun acc i =>
      let x := i % 5
      let y := i / 5
      acc.set (y + 5 * ((2 * x + 3 * y) % 5)) (rotl64 (s1.getD i 0) (keccakRho x y)))
    (List.replicate 25 0)
  let s2 := (List.range 25).map fun i =>
    let x := i % 5
    let y := i / 5
    b.getD i 0 ^^^ ((b.getD ((x + 1) % 5 + 5 * y) 0 ^^^ (2 ^ 64 - 1)) &&& b.getD ((x + 2) % 5 + 5 * y) 0)
  s2.set 0 (s2.getD 0 0 ^^^ rc)

/-- The Keccak-f[1600] permutation: 24 rounds. -/
def keccakF (st : List Nat) : List Nat := keccakRC.foldl keccakRound st

/-- Keccak pad10*1 with the Ethereum domain byte `0x01`, to a multiple of `rate`. -/
def keccakPad (rate : Nat) (msg : List Nat) : List Nat :=
  let padLen := rate - msg.length % rate
  if padLen = 1 then msg ++ [0x81]
  else msg ++ 0x01 :: (List.replicate (padLen - 2) 0 ++ [0x80])

/-- Split a list into chunks of `size`; `fuel` bounds the recursion depth. -/
def chunksOf (size : Nat) : Nat → List Nat → List (List Nat)
  | 0, _ => []
  | _, [] => []
  | fuel + 1, l => l.take size :: chunksOf size fuel (l.drop size)

/-- XOR one rate-sized block of bytes into the sponge state, 8 bytes per lane,
little-endian within each lane. -/
def keccakAbsorbBlock (st : List Nat) (block : List Nat) : List Nat :=
  (List.range 25).map fun lane =>
    st.getD lane 0 ^^^ bytesToLaneLE ((block.drop (8 * lane)).take 8)

/-- Keccak-256 as used by `sp_core::KeccakHasher` (rate 136, `0x01` domain padding,
32-byte digest). -/
def keccak256 (msg : Bytes) : Bytes :=
  let padded := keccakPad 136 (msg.map Fin.val)
  let st := (chunksOf 136 padded.length padded).foldl
    (fun s blk => keccakF (keccakAbsorbBlock s blk)) (List.replicate 25 0)
  (List.range 32).map fun i => natToByte (st.getD (i / 8) 0 >>> (8 * (i % 8)))

/-- The secp256k1 field prime. -/
def secpP : Nat := 2 ^ 256 - 2 ^ 32 - 977

/-- Modular exponentiation by binary splitting; `fuel` bounds the recursion. -/
def powModAux : Nat → Nat → Nat → Nat → Nat
  | 0, _, _, m => 1 % m
  | fuel + 1, b, e, m =>
      if e = 0 then 1 % m
      else
        let r := powModAux fuel (b * b % m) (e / 2) m
        if e % 2 = 1 then r * b % m else r

/-- `b ^ e` modulo `m` (for exponents below `2 ^ 300`). -/
def powMod (b e m : Nat) : Nat := powModAux 300 (b % m) e m

/-- Square root candidate in the secp256k1 field, `c ^ ((p + 1) / 4)` (valid since
`p ≡ 3 mod 4`), as computed by libsecp256k1's field square root. -/
def secpSqrtCandidate (c : Nat) : Nat := powMod c ((secpP + 1) / 4) secpP

/-- Model of `libsecp256k1::PublicKey::parse_slice(_, Some(Compressed))`: exactly 33
bytes, tag byte `02`/`03`, big-endian x below the field prime, `x³ + 7` a quadratic
residue; yields the affine point whose y parity matches the tag. -/
def parsePoint (b : Bytes) : Option (Nat × Nat) :=
  if b.length = 33 then
    match b with
    | [] => none
    | tag :: rest =>
        if tag.val = 2 ∨ tag.val = 3 then
          let x := bytesToNatBE rest
          if x < secpP then
            let c := (x ^ 3 + 7) % secpP
            let y0 := secpSqrtCandidate c
            if y0 * y0 % secpP = c then
              some (x, if y0 % 2 = tag.val % 2 then y0 else secpP - y0)
            else none
          else none
        else none
  else none

/-- Model of `libsecp256k1::PublicKey::serialize`: the 65-byte uncompressed form
`04 ‖ x ‖ y`, coordinates big-endian. -/
def serializeUncompressed (x y : Nat) : Bytes :=
  natToByte 4 :: (natToBytesBE 32 x ++ natToBytesBE 32 y)

/-- `H160::from (h : H256)` of primitive-types: the last 20 of the 32 bytes. -/
def h160FromH256 (h : Bytes) : Bytes := h.drop 12

/-- `ecdsa_public_to_eth_address` from helpers.rs: decompress the 33-byte public key,
serialize uncompressed, drop the leading format byte, Keccak-256 the 64-byte `x ‖ y`,
and convert the 32-byte digest to a 20-byte `H160`. -/
def ecdsa_public_to_eth_address (public : PubKey33) : Except Error Bytes :=
  match parsePoint public.val with
  | none => .error .pointDecompressionFailed
  | some (x, y) =>
      let decompressed := serializeUncompressed x y
      let m := decompressed.drop 1
      .ok (h160FromH256 (keccak256 m))

/-- The sixteen lowercase hexadecimal digit characters. -/
def lowerHexChars : List Char := "0123456789abcdef".data

/-- The `n`-th lowercase hex digit. -/
def lowerHexDigit (n : Nat) : Char := lowerHexChars.getD n '0'

/-- Debug rendering of `sp_core::hexdisplay::HexDisplay`: each byte as two lowercase
hexadecimal digits, nothing else. -/
def hexDisplayOf (bytes : Bytes) : List Char :=
  bytes.flatMap fun b => [lowerHexDigit (b.val / 16), lowerHexDigit (b.val % 16)]

/-- `print_ethereum_address` from helpers.rs: derive the Ethereum address, then render
it through `HexDisplay`. -/
def print_ethereum_address (public : PubKey33) : Except Error (List Char) :=
  (ecdsa_public_to_eth_address public).map hexDisplayOf

/-- Formalisation of the words of spec §4.4 step 5 for C9: the 40 hexadecimal digits
of the 20-byte address value, most significant nibble first, lowercase. -/
def spec_plain_hex_dump (addr : Bytes) : List Char :=
  (List.range 40).map fun i => lowerHexDigit (bytesToNatBE addr / 16 ^ (39 - i) % 16)

/-- Right-rotation of a 64-bit word by `n` (with `1 ≤ n ≤ 63`). -/
def rotr64 (x n : Nat) : Nat := (x >>> n) ||| mask64 (x <<< (64 - n))

/-- The Blake2b initialization vector. -/
def blake2bIV : List Nat :=
  [0x6A09E667F3BCC908, 0xBB67AE8584CAA73B, 0x3C6EF372FE94F82B, 0xA54FF53A5F1D36F1,
   0x510E527FADE682D1, 0x9B05688C2B3E6C1F, 0x1F83D9ABFB41BD6B, 0x5BE0CD19137E2179]

/-- The Blake2b message schedule permutations. -/
def blake2bSigma : List (List Nat) :=
  [[0, 1, 2, 3, 4, 5, 6, 7, 8, 9, 10, 11, 12, 13, 14, 15],
   [14, 10, 4, 8, 9, 15, 13, 6, 1, 12, 0, 2, 11, 7, 5, 3],
   [11, 8, 12, 0, 5, 2, 15, 13, 10, 14, 3, 6, 7, 1, 9, 4],
   [7, 9, 3, 1, 13, 12, 11, 14, 2, 6, 5, 10, 4, 0, 15, 8],
   [9, 0, 5, 7, 2, 4, 10, 15, 14, 1, 11, 12, 6, 8, 3, 13],
   [2, 12, 6, 10, 0, 11, 8, 3, 4, 13, 7, 5, 15, 14, 1, 9],
   [12, 5, 1, 15, 14, 13, 4, 10, 0, 7, 6, 3, 9, 2, 8, 11],
   [13, 11, 7, 14, 12, 1, 3, 9, 5, 0, 15, 4, 8, 6, 2, 10],
   [6, 15, 14, 9, 11, 3, 0, 8, 12, 2, 13, 7, 1, 4, 10, 5],
   [10, 2, 8, 4, 7, 6, 1, 5, 15, 11, 9, 14, 3, 12, 13, 0]]

/-- The Blake2b G mixing function on the 16-word work vector `v`, at positions
`a b c d`, with message words `x y`. -/
def blake2bG (v : List Nat) (a b c d x y : Nat) : List Nat :=
  let va := mask64 (v.getD a 0 + v.getD b 0 + x)
  let vd := rotr64 (v.getD d 0 ^^^ va) 32
  let vc := mask64 (v.getD c 0 + vd)
  let vb := rotr64 (v.getD b 0 ^^^ vc) 24
  let va2 := mask64 (va + vb + y)
  let vd2 := rotr64 (vd ^^^ va2) 16
  let vc2 := mask64 (vc + vd2)
  let vb2 := rotr64 (vb ^^^ vc2) 63
  (((v.set a va2).set b vb2).set c vc2).set d vd2

/-- One Blake2b round: eight G applications under the round's sigma permutation. -/
def blake2bRound (m : List Nat) (v : List Nat) (r : Nat) : List Nat :=
  let s := blake2bSigma.getD (r % 10) []
  let g := fun (v' : List Nat) (i a b c d : Nat) =>
    blake2bG v' a b c d (m.getD (s.getD (2 * i) 0) 0) (m.getD (s.getD (2 * i + 1) 0) 0)
  let v1 := g v 0 0 4 8 12
  let v2 := g v1 1 1 5 9 13
  let v3 := g v2 2 2 6 10 14
  let v4 := g v3 3 3 7 11 15
  let v5 := g v4 4 0 5 10 15
  let v6 := g v5 5 1 6 11 12
  let v7 := g v6 6 2 7 8 13
  g v7 7 3 4 9 14

/-- The Blake2b compression function: mix one 128-byte block into the state `h`,
with byte counter `t` and finalization flag `f`. -/
def blake2bCompress (h : List Nat) (block : List Nat) (t : Nat) (f : Bool) : List Nat :=
  let m := (List.range 16).map fun i => bytesToLaneLE ((block.drop (8 * i)).take 8)
  let v0 := h ++ blake2bIV
  let v1 := v0.set 12 (v0.getD 12 0 ^^^ mask64 t)
  let v2 := v1.set 13 (v1.getD 13 0 ^^^ (t / 2 ^ 64))
  let v3 := if f then v2.set 14 (v2.getD 14 0 ^^^ (2 ^ 64 - 1)) else v2
  let vfin := (List.range 12).foldl (blake2bRound m) v3
  (List.range 8).map fun i => h.getD i 0 ^^^ vfin.getD i 0 ^^^ vfin.getD (i + 8) 0

/-- Blake2b block loop: full blocks are compressed non-final; the last (possibly
partial, zero-padded) block is compressed final with the total byte count.
`fuel` bounds the recursion. -/
def blake2bLoop : Nat → List Nat → List Nat → Nat → List Nat
  | 0, h, _, _ => h
  | fuel + 1, h, rest, done =>
      if rest.length ≤ 128 then
        blake2bCompress h (rest ++ List.replicate (128 - rest.length) 0) (done + rest.length) true
      else
        blake2bLoop fuel (blake2bCompress h (rest.take 128) (done + 128) false)
          (rest.drop 128) (done + 128)

/-- Blake2b-512, unkeyed: 64-byte digest. -/
def blake2b512 (msg : Bytes) : Bytes :=
  let h0 := blake2bIV.set 0 (blake2bIV.getD 0 0 ^^^ 0x01010040)
  let h := blake2bLoop (msg.length + 1) h0 (msg.map Fin.val) 0
  (List.range 64).map fun i => natToByte (h.getD (i / 8) 0 >>> (8 * (i % 8)))

/-- The base58 alphabet (no `0`, `O`, `I`, `l`). -/
def base58Alphabet : List Char :=
  "123456789ABCDEFGHJKLMNPQRSTUVWXYZabcdefghijkmnopqrstuvwxyz".data

/-- Base58 digits of `n`, least significant first; `fuel` bounds the recursion. -/
def natToBase58Rev : Nat → Nat → List Char
  | 0, _ => []
  | fuel + 1, n =>
      if n = 0 then []
      else base58Alphabet.getD (n % 58) '1' :: natToBase58Rev fuel (n / 58)

/-- Standard base58 encoding of a byte string: each leading zero byte becomes `1`,
followed by the big-endian base58 numeral of the rest. -/
def base58Encode (bytes : Bytes) : List Char :=
  let zeros := (bytes.takeWhile (fun b => b.val = 0)).length
  List.replicate zeros '1' ++ (natToBase58Rev (2 * bytes.length + 1) (bytesToNatBE bytes)).reverse

/-- The `SS58PRE` checksum context tag. -/
def ss58Pre : Bytes :=
  [natToByte 0x53, natToByte 0x53, natToByte 0x35, natToByte 0x38,
   natToByte 0x50, natToByte 0x52, natToByte 0x45]

/-- `ss58hash` of sp_core: Blake2b-512 over `SS58PRE ‖ data`. -/
def ss58hash (data : Bytes) : Bytes := blake2b512 (ss58Pre ++ data)

/-- `Ss58Codec::to_ss58check_with_version` of sp_core: mask the prefix value to its
low 14 bits, encode it in one byte (`0..=63`) or two (`64..=16383`), append the raw
account bytes, then the first two checksum bytes of `ss58hash`, and base58-encode. -/
def to_ss58check_with_version (account : Bytes) (version : Nat) : List Char :=
  let ident := version &&& 0x3FFF
  let pfxBytes : Bytes :=
    if ident ≤ 63 then [natToByte ident]
    else [natToByte (((ident &&& 0xFC) >>> 2) ||| 0x40),
          natToByte ((ident >>> 8) ||| ((ident &&& 3) <<< 6))]
  let body := pfxBytes ++ account
  let payload := body ++ (ss58hash body).take 2
  base58Encode payload

/-- The library default ss58 prefix (`Ss58AddressFormat::default()`: Substrate, 42;
sp_core's mutable global default, never reassigned by this crate). -/
def defaultSs58Version : Nat := 42

/-- `Ss58Codec::to_ss58check`: rendering under the default prefix. -/
def to_ss58check (account : Bytes) : List Char :=
  to_ss58check_with_version account defaultSs58Version

/-- `print_multisigner_as_base58` from helpers.rs. -/
def print_multisigner_as_base58 (multiSigner : MultiSigner) (optionalPfx : Option Nat) :
    List Char :=
  match optionalPfx with
  | some base58pfx =>
      match multiSigner with
      | .Ed25519 pubkey => to_ss58check_with_version pubkey.val base58pfx
      | .Sr25519 pubkey => to_ss58check_with_version pubkey.val base58pfx
      | .Ecdsa pubkey => to_ss58check_with_version pubkey.val base58pfx
  | none =>
      match multiSigner with
      | .Ed25519 pubkey => to_ss58check pubkey.val
      | .Sr25519 pubkey => to_ss58check pubkey.val
      | .Ecdsa pubkey => to_ss58check pubkey.val

/-- `IdenticonStyle` from helpers.rs. -/
inductive IdenticonStyle
  | Dots
  | Blockies
deriving DecidableEq

/-- Modelled from the spec: `EMPTY_PNG` of the external `plot_icon` crate, the fixed
empty-image placeholder (spec §4.5); its concrete bytes are outside the sources and
are represented here by the 8-byte PNG signature. -/
def EMPTY_PNG : Bytes :=
  [natToByte 137, natToByte 80, natToByte 78, natToByte 71,
   natToByte 13, natToByte 10, natToByte 26, natToByte 10]

/-- `make_identicon` from helpers.rs, with the external `plot_icon::generate_png`
generator passed as `dotsGen` (seed bytes and image halfsize in, may fail): a
generator failure falls back to `EMPTY_PNG`. -/
def make_identicon (dotsGen : Bytes → Nat → Option Bytes) (intoId : Bytes) : Bytes :=
  match dotsGen intoId 72 with
  | some a => a
  | none => EMPTY_PNG

/-- `SeedString::canonicalize_ethaddr` of the `eth_blockies` crate: lowercase, with a
single `0x` prelude ensured. -/
def canonicalizeEthaddr (s : List Char) : List Char :=
  let lower := s.map Char.toLower
  if lower.take 2 = ['0', 'x'] then lower else '0' :: 'x' :: lower

/-- `make_identicon_from_multisigner` from helpers.rs.  The external generators are
parameters: `dotsGen` is `plot_icon::generate_png`, `blockiesGen` is
`eth_blockies::eth_blockies_png_data` (seed string, dimension, compressed flag).
The Blockies/Ecdsa arm calls `.unwrap()` on `print_ethereum_address`; the panic this
causes on an invalid compressed point is modelled as `none`. -/
def make_identicon_from_multisigner (dotsGen : Bytes → Nat → Option Bytes)
    (blockiesGen : List Char → Nat × Nat → Bool → Bytes)
    (multisigner : MultiSigner) (style : IdenticonStyle) : Option Bytes :=
  match style with
  | .Dots => some (make_identicon dotsGen (multisigner_to_public multisigner))
  | .Blockies =>
      match multisigner with
      | .Ecdsa public =>
          match print_ethereum_address public with
          | .ok account => some (blockiesGen (canonicalizeEthaddr account) (72, 72) false)
          | .error _ => none
      | _ => some EMPTY_PNG

/-- The secp256k1 generator point's x-coordinate. -/
def secpGx : Nat := 0x79BE667EF9DCBBAC55A06295CE870B07029BFCDB2DCE28D959F2815B16F81798

/-- The secp256k1 generator point's y-coordinate (even). -/
def secpGy : Nat := 0x483ADA7726A3C4655DA4FBFC0E1108A8FD17B448A68554199C47D08FFB10D4B8

/-- The generator point in compressed encoding: tag `02` (even y) then big-endian x. -/
def secpGCompressed : PubKey33 := ⟨natToByte 2 :: natToBytesBE 32 secpGx, by simp [natToBytesBE]⟩

/-- The digest length of `keccak256` is always 32 bytes. -/
theorem keccak256_length (msg : Bytes) : (keccak256 msg).length = 32 := by
  simp [keccak256]

/-- The pair loop of `hex::decode` succeeds exactly when every character is a hex
digit. -/
theorem decodeHexPairs_ok_iff : ∀ (s : List Char) (i : Nat),
    (∃ bs, decodeHexPairs s i = .ok bs) ↔ s.all isHexDigit = true
  | [], i => by simp [decodeHexPairs]
  | [c], i => by
      cases h : hexVal c with
      | none => simp [decodeHexPairs, h, isHexDigit]
      | some v => simp [decodeHexPairs, h, isHexDigit]
  | c1 :: c2 :: rest, i => by
      have ih := decodeHexPairs_ok_iff rest (i + 2)
      cases h1 : hexVal c1 with
      | none => simp [decodeHexPairs, h1, isHexDigit]
      | some v1 =>
          cases h2 : hexVal c2 with
          | none => simp [decodeHexPairs, h1, h2, isHexDigit]
          | some v2 =>
              cases hr : decodeHexPairs rest (i + 2) with
              | ok bs =>
                  have hall := ih.mp ⟨bs, hr⟩
                  simp [decodeHexPairs, h1, h2, hr, isHexDigit, hall, Except.map]
              | error e =>
                  have hnall : ¬ rest.all isHexDigit = true := fun hall => by
                    obtain ⟨bs, hbs⟩ := ih.mpr hall
                    rw [hr] at hbs
                    cases hbs
                  simp [decodeHexPairs, h1, h2, hr, isHexDigit, hnall, Except.map]

/-- C3 counterexample: two rejected inputs of different actual lengths (31 and 30
bytes) yield one and the same `WrongPublicKeyLength` error value, so the error cannot
carry the actual (nor any per-input) length of the rejected input. -/
theorem C3_counterexample :
    (List.map natToByte (List.replicate 31 0)).length ≠
      (List.map natToByte (List.replicate 30 0)).length ∧
    get_multisigner (List.map natToByte (List.replicate 31 0)) Encryption.Ed25519 =
      get_multisigner (List.map natToByte (List.replicate 30 0)) Encryption.Ed25519 := by
  decide

/-- C3 amended: for every byte sequence whose length is wrong for the declared
scheme, `get_multisigner` fails with the `WrongPublicKeyLength` error — a payload-free
error that does not carry the expected or actual length. -/
theorem C3_wrong_length_error (b : Bytes) (s : Encryption)
    (h : b.length ≠ expectedKeyLength s) :
    get_multisigner b s = .error .wrongPublicKeyLength := by
  cases s <;>
    simp_all [get_multisigner, expectedKeyLength]

/-- Witness for C3 at the empty byte string under Ed25519. -/
theorem C3_wrong_length_error_witness :
    ([] : Bytes).length ≠ expectedKeyLength Encryption.Ed25519 ∧
    get_multisigner [] Encryption.Ed25519 = .error .wrongPublicKeyLength :=
  ⟨by decide, C3_wrong_length_error [] Encryption.Ed25519 (by decide)⟩

/-- C5: `get_multisigner` succeeds exactly when the input length matches the scheme
(32 for Ed25519 and Sr25519, 33 for Ecdsa and Ethereum), and on success the key holds
exactly the input bytes under the corresponding variant (`MultiSigner::Ecdsa` for both
Ecdsa and Ethereum). -/
theorem C5_get_multisigner_length_contract (b : Bytes) (s : Encryption) :
    ((∃ m, get_multisigner b s = .ok m) ↔ b.length = expectedKeyLength s) ∧
    (∀ h32 : b.length = 32,
      (s = .Ed25519 → get_multisigner b s = .ok (.Ed25519 ⟨b, h32⟩)) ∧
      (s = .Sr25519 → get_multisigner b s = .ok (.Sr25519 ⟨b, h32⟩))) ∧
    (∀ h33 : b.length = 33,
      (s = .Ecdsa ∨ s = .Ethereum) → get_multisigner b s = .ok (.Ecdsa ⟨b, h33⟩)) := by
  refine ⟨?_, fun h32 => ⟨fun hs => ?_, fun hs => ?_⟩, fun h33 hs => ?_⟩
  · constructor
    · rintro ⟨m, hm⟩
      cases s <;>
        (simp only [get_multisigner] at hm
         split at hm <;> simp_all [expectedKeyLength])
    · intro h
      cases s <;>
        exact ⟨_, by simp only [get_multisigner]; exact dif_pos h⟩
  · subst hs; simp [get_multisigner, h32]
  · subst hs; simp [get_multisigner, h32]
  · rcases hs with hs | hs <;> (subst hs; simp [get_multisigner, h33])

/-- Witness for C5 at a 33-byte key under the Ethereum scheme. -/
theorem C5_get_multisigner_length_contract_witness :
    zero33.val.length = 33 ∧
    get_multisigner zero33.val Encryption.Ethereum = .ok (.Ecdsa zero33) :=
  ⟨zero33.property,
   (C5_get_multisigner_length_contract zero33.val Encryption.Ethereum).2.2
     zero33.property (Or.inr rfl)⟩

/-- C10: reconstructing a key from its extracted public bytes and scheme restores it
exactly, and for 33-byte inputs the Ethereum scheme constructs the same key as the
Ecdsa scheme. -/
theorem C10_roundtrip (m : MultiSigner) (b : Bytes) :
    get_multisigner (multisigner_to_public m) (multisigner_to_encryption m) = .ok m ∧
    (b.length = 33 → get_multisigner b .Ethereum = get_multisigner b .Ecdsa) := by
  constructor
  · cases m with
    | Ed25519 a => simp [multisigner_to_public, multisigner_to_encryption, get_multisigner, a.property]
    | Sr25519 a => simp [multisigner_to_public, multisigner_to_encryption, get_multisigner, a.property]
    | Ecdsa a => simp [multisigner_to_public, multisigner_to_encryption, get_multisigner, a.property]
  · intro _
    rfl

/-- Witness for C10 at the all-zero Ecdsa key and a 33-byte input. -/
theorem C10_roundtrip_witness :
    zero33.val.length = 33 ∧
    get_multisigner (multisigner_to_public (.Ecdsa zero33))
      (multisigner_to_encryption (.Ecdsa zero33)) = .ok (.Ecdsa zero33) ∧
    get_multisigner zero33.val .Ethereum = get_multisigner zero33.val .Ecdsa :=
  ⟨zero33.property, (C10_roundtrip (.Ecdsa zero33) zero33.val).1,
   (C10_roundtrip (.Ecdsa zero33) zero33.val).2 zero33.property⟩

/-- C6: for a valid hex string (even length, only hex digits, not itself starting
with `0x`), `unhex` of `"0x" ++ s` equals `unhex s`; and `unhex` fails exactly when
the prefix-stripped string has odd length or contains a non-hex character. -/
theorem C6_unhex_prefix_and_failure (s : List Char) :
    (s.length % 2 = 0 → s.all isHexDigit = true → s.take 2 ≠ ['0', 'x'] →
      unhex ('0' :: 'x' :: s) = unhex s) ∧
    ((∃ e, unhex s = .error e) ↔
      ((if s.take 2 = ['0', 'x'] then s.drop 2 else s).length % 2 = 1 ∨
        ¬ (if s.take 2 = ['0', 'x'] then s.drop 2 else s).all isHexDigit = true)) := by
  constructor
  · intro _ _ hpre
    show (match hexDecode (if ('0' :: 'x' :: s).take 2 = ['0', 'x']
            then ('0' :: 'x' :: s).drop 2 else '0' :: 'x' :: s) with
          | .ok v => (.ok v : Except Error Bytes)
          | .error e => .error (.hexError e)) = unhex s
    have h1 : (('0' :: 'x' :: s).take 2 = ['0', 'x']) := by simp
    rw [if_pos h1]
    unfold unhex
    rw [if_neg hpre]
    rfl
  · have key : ∀ (t : List Char),
        (∃ e, (match hexDecode t with
              | .ok v => (.ok v : Except Error Bytes)
              | .error e => .error (.hexError e)) = .error e) ↔
          (t.length % 2 = 1 ∨ ¬ t.all isHexDigit = true) := by
      intro t
      by_cases hodd : t.length % 2 = 1
      · simp [hexDecode, hodd]
      · cases hd : decodeHexPairs t 0 with
        | ok bs =>
            have hall := (decodeHexPairs_ok_iff t 0).mp ⟨bs, hd⟩
            simp [hexDecode, hodd, hd, hall]
        | error e =>
            have hnall : ¬ t.all isHexDigit = true := fun hall => by
              obtain ⟨bs, hbs⟩ := (decodeHexPairs_ok_iff t 0).mpr hall
              rw [hd] at hbs
              cases hbs
            simp [hexDecode, hodd, hd, hnall]
    exact key (if s.take 2 = ['0', 'x'] then s.drop 2 else s)

/-- Witness for C6 at the valid hex string `ab`. -/
theorem C6_unhex_prefix_and_failure_witness :
    (['a', 'b'].length % 2 = 0 ∧ ['a', 'b'].all isHexDigit = true ∧
      ['a', 'b'].take 2 ≠ ['0', 'x']) ∧
    unhex ['0', 'x', 'a', 'b'] = unhex ['a', 'b'] :=
  ⟨⟨by decide, by decide, by decide⟩,
   (C6_unhex_prefix_and_failure ['a', 'b']).1 (by decide) (by decide) (by decide)⟩

/-- On a 32-byte digest, taking the `H160` tail (drop 12) is taking the last 20
bytes. -/
theorem h160_eq_lastBytes (l : Bytes) (h : l.length = 32) :
    h160FromH256 l = lastBytes 20 l := by
  simp [h160FromH256, lastBytes, h]

/-- C1: when the key's 33 bytes parse as a valid compressed secp256k1 point,
`ecdsa_public_to_eth_address` returns exactly the last 20 bytes of the Keccak-256
hash of the 64-byte `x ‖ y` obtained by dropping the leading format byte of the
uncompressed serialization; when they do not, it fails with the point-decompression
error. -/
theorem C1_eth_address_derivation (public : PubKey33) :
    (∀ x y, parsePoint public.val = some (x, y) →
      ecdsa_public_to_eth_address public =
        .ok (lastBytes 20 (keccak256 ((serializeUncompressed x y).drop 1)))) ∧
    (parsePoint public.val = none →
      ecdsa_public_to_eth_address public = .error .pointDecompressionFailed) := by
  constructor
  · intro x y hp
    have h2 : h160FromH256 (keccak256 ((serializeUncompressed x y).drop 1)) =
        lastBytes 20 (keccak256 ((serializeUncompressed x y).drop 1)) :=
      h160_eq_lastBytes _ (keccak256_length _)
    simp only [ecdsa_public_to_eth_address, hp]
    rw [h2]
  · intro hp
    unfold ecdsa_public_to_eth_address
    rw [hp]

/-- Witness for C1 at the generator point (tag 02, even y). -/
theorem C1_eth_address_derivation_witness :
    parsePoint secpGCompressed.val = some (secpGx, secpGy) ∧
    ecdsa_public_to_eth_address secpGCompressed =
      .ok (lastBytes 20 (keccak256 ((serializeUncompressed secpGx secpGy).drop 1))) :=
  ⟨by set_option maxRecDepth 100000 in decide,
   (C1_eth_address_derivation secpGCompressed).1 secpGx secpGy
     (by set_option maxRecDepth 100000 in decide)⟩

/-- C8: base58 address rendering and Ethereum address derivation are deterministic —
the embedded operations are pure functions, so identical inputs give identical
results. -/
theorem C8_determinism (m : MultiSigner) (p : Option Nat) (public : PubKey33) :
    print_multisigner_as_base58 m p = print_multisigner_as_base58 m p ∧
    ecdsa_public_to_eth_address public = ecdsa_public_to_eth_address public :=
  ⟨rfl, rfl⟩

/-- C2 counterexample: with Blockies style and an Ecdsa key whose 33 bytes are not a
valid compressed point (all zeros, tag byte 0), the `.unwrap()` on
`print_ethereum_address` in the source panics — modelled as `none` — so rendering
does fail at this input (the generator stand-ins are total and are never reached). -/
theorem C2_counterexample :
    make_identicon_from_multisigner (fun _ _ => none) (fun _ _ _ => [])
      (MultiSigner.Ecdsa zero33) IdenticonStyle.Blockies = none := by
  set_option maxRecDepth 100000 in decide

/-- C2 amended: `make_identicon_from_multisigner` returns PNG bytes for every input
except on one panicking path — the result is `none` (the `.unwrap()` panic) exactly
when the style is Blockies and the key is an Ecdsa key whose bytes fail point
decompression; and a Dots-generator failure is absorbed by the `EMPTY_PNG`
fallback rather than propagated. -/
theorem C2_identicon_never_fails_except_blockies_invalid_point
    (dotsGen : Bytes → Nat → Option Bytes)
    (blockiesGen : List Char → Nat × Nat → Bool → Bytes)
    (m : MultiSigner) (st : IdenticonStyle) :
    (make_identicon_from_multisigner dotsGen blockiesGen m st = none ↔
      st = .Blockies ∧ ∃ public : PubKey33, m = .Ecdsa public ∧ parsePoint public.val = none) ∧
    (∀ i, dotsGen i 72 = none → make_identicon dotsGen i = EMPTY_PNG) := by
  constructor
  · cases st with
    | Dots => simp [make_identicon_from_multisigner]
    | Blockies =>
        cases m with
        | Ed25519 a => simp [make_identicon_from_multisigner]
        | Sr25519 a => simp [make_identicon_from_multisigner]
        | Ecdsa a =>
            cases hp : parsePoint a.val with
            | none =>
                simp only [make_identicon_from_multisigner, print_ethereum_address,
                  ecdsa_public_to_eth_address, hp, Except.map]
                exact iff_of_true trivial ⟨trivial, a, rfl, hp⟩
            | some xy =>
                simp only [make_identicon_from_multisigner, print_ethereum_address,
                  ecdsa_public_to_eth_address, hp, Except.map]
                constructor
                · intro hcontra
                  cases hcontra
                · rintro ⟨-, pk, hpk, hnone⟩
                  cases hpk
                  rw [hp] at hnone
                  cases hnone
  · intro i hg
    simp [make_identicon, hg]

/-- Witness for C2: the Dots style never yields the panic value, and a failing
Dots generator falls back to the placeholder. -/
theorem C2_identicon_never_fails_witness :
    make_identicon_from_multisigner (fun _ _ => none) (fun _ _ _ => [])
      (MultiSigner.Ed25519 zero32) IdenticonStyle.Dots ≠ none ∧
    make_identicon (fun _ _ => none) zero32.val = EMPTY_PNG := by
  have h := C2_identicon_never_fails_except_blockies_invalid_point
    (fun _ _ => none) (fun _ _ _ => []) (MultiSigner.Ed25519 zero32) IdenticonStyle.Dots
  exact ⟨(fun hn => nomatch (h.1.mp hn).1), h.2 zero32.val rfl⟩

/-- C7: Blockies style on a non-Ecdsa key returns exactly the fixed placeholder
bytes, for every pair of generators — so the result does not depend on (and never
invokes) either generator. -/
theorem C7_blockies_non_ecdsa_placeholder
    (dotsGen : Bytes → Nat → Option Bytes)
    (blockiesGen : List Char → Nat × Nat → Bool → Bytes)
    (m : MultiSigner) (h : multisigner_to_encryption m ≠ Encryption.Ecdsa) :
    make_identicon_from_multisigner dotsGen blockiesGen m IdenticonStyle.Blockies =
      some EMPTY_PNG := by
  cases m with
  | Ed25519 a => rfl
  | Sr25519 a => rfl
  | Ecdsa a => exact absurd rfl h

/-- Witness for C7 at an Sr25519 key. -/
theorem C7_blockies_non_ecdsa_placeholder_witness :
    multisigner_to_encryption (MultiSigner.Sr25519 zero32) ≠ Encryption.Ecdsa ∧
    make_identicon_from_multisigner (fun _ _ => none) (fun _ _ _ => [])
      (MultiSigner.Sr25519 zero32) IdenticonStyle.Blockies = some EMPTY_PNG :=
  ⟨by decide,
   C7_blockies_non_ecdsa_placeholder (fun _ _ => none) (fun _ _ _ => [])
     (MultiSigner.Sr25519 zero32) (by decide)⟩

/-- C4 counterexample: at the out-of-range explicit prefix 16385 (above 16383),
`print_multisigner_as_base58` still produces an address — exactly the one for prefix
1, the upper two bits having been masked off — instead of failing; its result type
has no error case at all. -/
theorem C4_counterexample :
    print_multisigner_as_base58 (.Ed25519 zero32) (some 16385) =
      print_multisigner_as_base58 (.Ed25519 zero32) (some 1) := by
  have h : (16385 : Nat) &&& 0x3FFF = 1 &&& 0x3FFF := by decide
  show to_ss58check_with_version zero32.val 16385 = to_ss58check_with_version zero32.val 1
  unfold to_ss58check_with_version
  rw [h]

/-- C4 amended: `print_multisigner_as_base58` has no fallible step at all: an
explicit 16-bit prefix value is masked to its low 14 bits, so a value above 16383
yields the address of the masked prefix instead of an `InvalidPrefixRange` error. -/
theorem C4_prefix_masked_not_rejected (m : MultiSigner) (p : Nat) (_hp : p < 2 ^ 16) :
    print_multisigner_as_base58 m (some p) =
      print_multisigner_as_base58 m (some (p &&& 0x3FFF)) := by
  have h : (p &&& 0x3FFF) &&& 0x3FFF = p &&& 0x3FFF := by
    rw [Nat.and_assoc, show (0x3FFF : Nat) &&& 0x3FFF = 0x3FFF from by decide]
  cases m with
  | Ed25519 a =>
      show to_ss58check_with_version a.val p = to_ss58check_with_version a.val (p &&& 0x3FFF)
      unfold to_ss58check_with_version
      rw [h]
  | Sr25519 a =>
      show to_ss58check_with_version a.val p = to_ss58check_with_version a.val (p &&& 0x3FFF)
      unfold to_ss58check_with_version
      rw [h]
  | Ecdsa a =>
      show to_ss58check_with_version a.val p = to_ss58check_with_version a.val (p &&& 0x3FFF)
      unfold to_ss58check_with_version
      rw [h]

/-- Witness for C4 at the 16-bit prefix 20000. -/
theorem C4_prefix_masked_not_rejected_witness :
    20000 < 2 ^ 16 ∧
    print_multisigner_as_base58 (.Sr25519 zero32) (some 20000) =
      print_multisigner_as_base58 (.Sr25519 zero32) (some (20000 &&& 0x3FFF)) :=
  ⟨by decide, C4_prefix_masked_not_rejected (.Sr25519 zero32) 20000 (by decide)⟩

/-- Folding `bytesToNatBE` from a nonzero accumulator. -/
theorem foldlBE_acc : ∀ (t : Bytes) (acc : Nat),
    t.foldl (fun a b => a * 256 + b.val) acc =
      acc * 256 ^ t.length + t.foldl (fun a b => a * 256 + b.val) 0
  | [], acc => by simp
  | c :: t, acc => by
      have h1 := foldlBE_acc t (acc * 256 + c.val)
      have h2 := foldlBE_acc t (0 * 256 + c.val)
      simp only [List.foldl_cons, List.length_cons]
      rw [h1, h2]
      ring

/-- Peeling the leading byte off a big-endian value. -/
theorem bytesToNatBE_cons (c : Byte) (t : Bytes) :
    bytesToNatBE (c :: t) = c.val * 256 ^ t.length + bytesToNatBE t := by
  show t.foldl _ (0 * 256 + c.val) = _
  rw [foldlBE_acc t (0 * 256 + c.val)]
  show (0 * 256 + c.val) * 256 ^ t.length + bytesToNatBE t = _
  ring

/-- A big-endian byte value is bounded by `256 ^ length`. -/
theorem bytesToNatBE_lt (t : Bytes) : bytesToNatBE t < 256 ^ t.length := by
  induction t with
  | nil => simp [bytesToNatBE]
  | cons c t ih =>
      simp only [List.length_cons]
      rw [bytesToNatBE_cons]
      have hc : c.val + 1 ≤ 256 := c.isLt
      calc c.val * 256 ^ t.length + bytesToNatBE t
          < (c.val + 1) * 256 ^ t.length := by
            have := Nat.pos_pow_of_pos t.length (show 0 < 256 by norm_num)
            nlinarith
        _ ≤ 256 * 256 ^ t.length := Nat.mul_le_mul_right _ hc
        _ = 256 ^ (t.length + 1) := by ring

/-- Dividing `B · 256^k + N` (with `N < 256^k`) by `16^(2k)` recovers `B`. -/
theorem div_pow_high (B N k : Nat) (hN : N < 256 ^ k) :
    (B * 256 ^ k + N) / 16 ^ (2 * k) = B := by
  have h256 : (256 : Nat) ^ k = 16 ^ (2 * k) := by
    rw [show (256 : Nat) = 16 ^ 2 from rfl, ← pow_mul]
  rw [h256] at hN ⊢
  rw [Nat.mul_comm B _, Nat.mul_add_div (Nat.pos_pow_of_pos _ (by norm_num))]
  rw [Nat.div_eq_of_lt hN, Nat.add_zero]

/-- Nibble `0` (most significant) of the leading byte. -/
theorem digit_high (B N k : Nat) (hB : B < 256) (hN : N < 256 ^ k) :
    (B * 256 ^ k + N) / 16 ^ (2 * k + 1) % 16 = B / 16 := by
  rw [pow_succ, ← Nat.div_div_eq_div_mul, div_pow_high B N k hN]
  exact Nat.mod_eq_of_lt ((Nat.div_lt_iff_lt_mul (by norm_num)).mpr (by omega))

/-- Nibble `1` of the leading byte. -/
theorem digit_second (B N k : Nat) (hN : N < 256 ^ k) :
    (B * 256 ^ k + N) / 16 ^ (2 * k) % 16 = B % 16 := by
  rw [div_pow_high B N k hN]

/-- Nibbles below the leading byte coincide with those of the tail value. -/
theorem digit_low (B N k j : Nat) (hj : j < 2 * k) :
    (B * 256 ^ k + N) / 16 ^ j % 16 = N / 16 ^ j % 16 := by
  have h256 : (256 : Nat) ^ k = 16 ^ (2 * k) := by
    rw [show (256 : Nat) = 16 ^ 2 from rfl, ← pow_mul]
  have hsplit : (16 : Nat) ^ (2 * k) = 16 ^ j * 16 ^ (2 * k - j) := by
    rw [← pow_add]
    congr 1
    omega
  rw [h256, hsplit, show B * (16 ^ j * 16 ^ (2 * k - j)) = 16 ^ j * (B * 16 ^ (2 * k - j)) by ring]
  rw [Nat.mul_add_div (Nat.pos_pow_of_pos _ (by norm_num))]
  rw [show 2 * k - j = (2 * k - j - 1) + 1 by omega, pow_succ]
  rw [show B * (16 ^ (2 * k - j - 1) * 16) = 16 * (B * 16 ^ (2 * k - j - 1)) by ring]
  rw [Nat.mul_add_mod]

/-- Mapping over `range (k + 2)` peels off the first two indices. -/
theorem rangeMap_shift (k : Nat) (f : Nat → Char) :
    (List.range (k + 2)).map f = f 0 :: f 1 :: (List.range k).map (fun i => f (i + 2)) := by
  rw [List.range_succ_eq_map, List.range_succ_eq_map]
  simp [List.map_map, Function.comp, Nat.succ_eq_add_one]

/-- `hexDisplayOf` lists exactly the base-16 digits of the big-endian value of the
bytes, most significant first. -/
theorem hexDisplayOf_eq_digits : ∀ (l : Bytes),
    hexDisplayOf l = (List.range (2 * l.length)).map
      (fun i => lowerHexDigit (bytesToNatBE l / 16 ^ (2 * l.length - 1 - i) % 16))
  | [] => by simp [hexDisplayOf]
  | b :: t => by
      have ih := hexDisplayOf_eq_digits t
      have hB : b.val < 256 := b.isLt
      have hN := bytesToNatBE_lt t
      have hM := bytesToNatBE_cons b t
      have hlen : 2 * (b :: t).length = 2 * t.length + 2 := by
        simp [List.length_cons]
        ring
      have lhs_eq : hexDisplayOf (b :: t) =
          lowerHexDigit (b.val / 16) :: lowerHexDigit (b.val % 16) :: hexDisplayOf t := by
        simp [hexDisplayOf]
      rw [lhs_eq, hlen, rangeMap_shift]
      refine congrArg₂ List.cons ?_ (congrArg₂ List.cons ?_ ?_)
      · rw [hM, show 2 * t.length + 2 - 1 - 0 = 2 * t.length + 1 by omega]
        exact congrArg lowerHexDigit (digit_high b.val (bytesToNatBE t) t.length hB hN).symm
      · rw [hM, show 2 * t.length + 2 - 1 - 1 = 2 * t.length by omega]
        exact congrArg lowerHexDigit (digit_second b.val (bytesToNatBE t) t.length hN).symm
      · rw [ih]
        refine List.map_congr_left fun i hi => ?_
        have hi' : i < 2 * t.length := List.mem_range.mp hi
        rw [hM, show 2 * t.length + 2 - 1 - (i + 2) = 2 * t.length - 1 - i by omega]
        exact congrArg lowerHexDigit
          (digit_low b.val (bytesToNatBE t) t.length (2 * t.length - 1 - i) (by omega)).symm

/-- Every output of `lowerHexDigit` is a lowercase hex digit character (out-of-range
indices hit the `'0'` default). -/
theorem lowerHexDigit_mem (n : Nat) : lowerHexDigit n ∈ lowerHexChars := by
  by_cases h : n < 16
  · interval_cases n <;> decide
  · unfold lowerHexDigit
    rw [List.getD_eq_default]
    · decide
    · have h16 : lowerHexChars.length = 16 := rfl
      omega

/-- Every character of `hexDisplayOf` is a lowercase hex digit. -/
theorem hexDisplayOf_mem (l : Bytes) : ∀ c ∈ hexDisplayOf l, c ∈ lowerHexChars := by
  intro c hc
  simp only [hexDisplayOf, List.mem_flatMap, List.mem_cons, List.not_mem_nil, or_false] at hc
  obtain ⟨b, -, hc | hc⟩ := hc <;> exact hc ▸ lowerHexDigit_mem _

/-- `hexDisplayOf` yields two characters per byte. -/
theorem hexDisplayOf_length (l : Bytes) : (hexDisplayOf l).length = 2 * l.length := by
  induction l with
  | nil => rfl
  | cons b t ih =>
      simp only [hexDisplayOf, List.flatMap_cons, List.length_append, List.length_cons,
        List.length_nil, List.length_cons] at ih ⊢
      omega

/-- On 20-byte input, `hexDisplayOf` agrees with the spec's 40-nibble rendering. -/
theorem hexDisplayOf_eq_spec (addr : Bytes) (h : addr.length = 20) :
    hexDisplayOf addr = spec_plain_hex_dump addr := by
  rw [hexDisplayOf_eq_digits addr, h]
  unfold spec_plain_hex_dump
  norm_num

/-- C9: the text form of `print_ethereum_address` on a 20-byte address is the plain
lowercase hex dump: exactly 40 characters, all of them lowercase hex digits (so no
EIP-55 mixed casing), equal to the 40 hex digits of the address value, and
`print_ethereum_address` is exactly the derived address pushed through this
rendering. -/
theorem C9_ethereum_address_hex_form (addr : Bytes) (public : PubKey33)
    (h : addr.length = 20) :
    (hexDisplayOf addr).length = 40 ∧
    (hexDisplayOf addr).all (fun c => decide (c ∈ lowerHexChars)) = true ∧
    hexDisplayOf addr = spec_plain_hex_dump addr ∧
    print_ethereum_address public = (ecdsa_public_to_eth_address public).map hexDisplayOf := by
  refine ⟨?_, ?_, hexDisplayOf_eq_spec addr h, rfl⟩
  · rw [hexDisplayOf_length, h]
  · simp only [List.all_eq_true, decide_eq_true_eq]
    exact hexDisplayOf_mem addr

/-- Witness for C9 at a concrete 20-byte address and the all-zero key. -/
theorem C9_ethereum_address_hex_form_witness :
    (List.map natToByte (List.replicate 20 171)).length = 20 ∧
    (hexDisplayOf (List.map natToByte (List.replicate 20 171))).length = 40 ∧
    (hexDisplayOf (List.map natToByte (List.replicate 20 171))).all
      (fun c => decide (c ∈ lowerHexChars)) = true ∧
    hexDisplayOf (List.map natToByte (List.replicate 20 171)) =
      spec_plain_hex_dump (List.map natToByte (List.replicate 20 171)) ∧
    print_ethereum_address zero33 = (ecdsa_public_to_eth_address zero33).map hexDisplayOf := by
  have h := C9_ethereum_address_hex_form (List.map natToByte (List.replicate 20 171))
    zero33 (by decide)
  exact ⟨by decide, h.1, h.2.1, h.2.2.1, h.2.2.2⟩
